import Mathlib

/-!
Verification of scripts/render-cobol-coverage.py: a shallow embedding of the
gcov parser (parse_gcov), the summary aggregator (compute_summary, percent)
and the two renderers (build_json_payload, render_html), together with proofs
about the claims of the specification.

Line numbers in doc comments refer to scripts/render-cobol-coverage.py.
-/

set_option maxRecDepth 10000
set_option linter.unusedVariables false

/-- Branch record stored per branch id, as built on lines 76 and 82: the
taken-percentage (captured by a digit group of the regex, hence a natural
number) and the raw stripped line kept as diagnostic detail. -/
structure BranchInfo where
  pct : Nat
  detail : String
deriving DecidableEq

/-- Coverage entry for one source line (lines 30-33). Python stores either
None or an int in hits, so it is an Option Int (int() can produce negative
values on a signed count field). The branch dict is modelled as an
insertion-ordered association list. -/
structure Entry where
  hits : Option Int
  executable : Bool
  branches : List (Nat × BranchInfo)
deriving DecidableEq

/-- Python dict lookup on an insertion-ordered association list. -/
def lookupA {α : Type} (k : Nat) : List (Nat × α) → Option α
  | [] => none
  | p :: rest => if p.1 = k then some p.2 else lookupA k rest

/-- Python dict assignment d[k] = v: update the key in place if present,
otherwise append at the end. -/
def insertA {α : Type} (k : Nat) (v : α) : List (Nat × α) → List (Nat × α)
  | [] => [(k, v)]
  | p :: rest => if p.1 = k then (k, v) :: rest else p :: insertA k v rest

/-- Coverage map produced by the parser (line 17): line number to entry. -/
abbrev CoverageMap := List (Nat × Entry)

/-- Character-level splitting on a single separator, structurally recursive
so that concrete inputs evaluate inside the kernel; it agrees with
str.split(sep) for a one-character separator. -/
def splitOnChar (sep : Char) : List Char → List (List Char)
  | [] => [[]]
  | c :: rest =>
    match splitOnChar sep rest with
    | [] => [[]]
    | g :: gs => if c = sep then [] :: g :: gs else (c :: g) :: gs

/-- Joining of character groups with a separator, the inverse used to keep
the unsplit remainder of str.split(sep, 2). -/
def joinChars (sep : Char) : List (List Char) → List Char
  | [] => []
  | [g] => g
  | g :: gs => g ++ sep :: joinChars sep gs

/-- Models str.strip() with no argument: ASCII whitespace removed from both
ends (the exotic Unicode whitespace Python also strips never occurs in gcov
output). -/
def pyStrip (s : String) : String :=
  String.mk (((s.data.dropWhile Char.isWhitespace).reverse.dropWhile
    Char.isWhitespace).reverse)

/-- Models pathlib.Path(text).name on line 56: the final path component,
with empty and "." components dropped as pathlib normalizes them away. -/
def pathName (p : String) : String :=
  let comps := (splitOnChar '/' p.data).filter
    (fun cs => !cs.isEmpty && !(cs == ['.']))
  String.mk ((comps.getLast?).getD [])

/-- Models str.isdigit() on line 94: nonempty and every character a digit. -/
def isDigitString (s : String) : Bool :=
  !s.data.isEmpty && s.data.all Char.isDigit

/-- Decimal digit characters to a natural number. -/
def digitsToNat (cs : List Char) : Nat :=
  cs.foldl (fun a c => a * 10 + (c.toNat - ('0').toNat)) 0

/-- Models Python int(str) on an already-stripped field (line 103): an
optional sign followed by decimal digits; None on failure. Underscore
grouping and non-ASCII digits never occur in gcov output and are not
modelled. -/
def pyInt (s : String) : Option Int :=
  match s.toList with
  | [] => none
  | '-' :: rest =>
    if rest ≠ [] ∧ rest.all Char.isDigit then some (-(digitsToNat rest : Int)) else none
  | '+' :: rest =>
    if rest ≠ [] ∧ rest.all Char.isDigit then some ((digitsToNat rest : Int)) else none
  | cs => if cs.all Char.isDigit then some ((digitsToNat cs : Int)) else none

/-- Models str.split(sep, 2) on line 88 for the one-character separator the
code uses: at most two splits, the remainder rejoined with the separator. -/
def pySplit2 (sep : Char) (s : String) : List String :=
  match splitOnChar sep s.data with
  | a :: b :: c :: rest => [String.mk a, String.mk b, String.mk (joinChars sep (c :: rest))]
  | l => l.map String.mk

/-- Count-field handling of lines 97-105: the "-" sentinel is skipped, the
not-executed sentinels contribute 0, otherwise the field is parsed as an
int, with silent drop on failure. -/
def countToken (count_field : String) : Option Int :=
  if count_field = "-" then none
  else if count_field = "#####" ∨ count_field = "=====" then some 0
  else pyInt count_field

/-- Generic data-line handling of lines 68-70 and 88-105 for a line reaching
that code with an active current line: blank lines, lines with fewer than
three colon-separated parts, a non-digit line-number field or an empty count
field contribute nothing; otherwise the count field contributes at most one
token to the accumulator. -/
def plainToken (raw : String) : Option Int :=
  if pyStrip raw = "" then none
  else
    match pySplit2 ':' raw with
    | [p0, p1, _] =>
      if ¬ isDigitString (pyStrip p1) ∨ pyStrip p0 = "" then none
      else countToken (pyStrip p0)
    | _ => none

/-- Models Python max() over the accumulated counts on line 36. flush only
evaluates it on a nonempty list; the empty case returns 0 and is unreachable
there. -/
def listMax : List Int → Int
  | [] => 0
  | c :: cs => cs.foldl max c

/-- Hit merge of lines 36-38: keep the stored hits unless the new batch
maximum is strictly larger (None is always replaced). -/
def mergeHits (existing : Option Int) (hit_value : Int) : Int :=
  match existing with
  | none => hit_value
  | some h => if hit_value > h then hit_value else h

/-- Branch merge of lines 41-44: per branch id keep the record with the
strictly higher taken-percentage, preferring the already stored one on
ties. -/
def mergeBranch (e : Entry) (b : Nat × BranchInfo) : Entry :=
  match lookupA b.1 e.branches with
  | none => { e with branches := insertA b.1 b.2 e.branches }
  | some existing =>
    if b.2.pct > existing.pct then { e with branches := insertA b.1 b.2 e.branches } else e

/-- Mutable state of the parse loop in parse_gcov (lines 21-24). -/
structure ParseState where
  results : CoverageMap
  current_line : Option Nat
  counts : List Int
  branches : List (Nat × BranchInfo)
deriving DecidableEq

/-- Fresh map entry installed by results.setdefault on lines 30-33. -/
def defaultEntry : Entry :=
  { hits := none, executable := false, branches := [] }

/-- Count merge of flush lines 34-40: with accumulated counts the entry
becomes executable and its hits the merge of the old hits with the batch
maximum; with no counts the entry is unchanged (the elif of lines 39-40
assigns None over None, a no-op). -/
def applyCounts (entry0 : Entry) (counts : List Int) : Entry :=
  match counts with
  | [] => entry0
  | c :: cs =>
    { entry0 with executable := true
                , hits := some (mergeHits entry0.hits (listMax (c :: cs))) }

/-- Entry stored into the map for the active line by flush (lines 30-44):
the existing entry (or a fresh one from setdefault), with the accumulated
counts merged in, then each accumulated branch merged in. -/
def flushedEntry (cl : Nat) (s : ParseState) : Entry :=
  s.branches.foldl mergeBranch
    (applyCounts ((lookupA cl s.results).getD defaultEntry) s.counts)

/-- flush (lines 26-47): merge the pending accumulator into the map and
clear the accumulator; with no active line it is a no-op. The elif on lines
39-40 assigns None over None and changes nothing, so it is not represented. -/
def flush (s : ParseState) : ParseState :=
  match s.current_line with
  | none => s
  | some cl =>
    { results := insertA cl (flushedEntry cl s) s.results
    , current_line := none, counts := [], branches := [] }

/-- Classification of one raw gcov input line, encoding the outcome of the
regex cascade of lines 53-86. marker carries the two capture groups of
LINE_COMMENT_RE (line number and source path); branchTaken the two digit
groups of BRANCH_TAKEN_RE plus the stripped line kept as detail; branchNever
the digit group of BRANCH_NEVER_RE plus the stripped line; callFunc a
stripped line starting with call or function that matched no earlier
pattern; plain any remaining line, carried verbatim for the colon-field
processing of lines 88-105. -/
inductive GcovLine where
  | marker (lineNo : Nat) (path : String)
  | branchTaken (id : Nat) (pct : Nat) (detail : String)
  | branchNever (id : Nat) (detail : String)
  | callFunc
  | plain (raw : String)
deriving DecidableEq

/-- One iteration of the parse loop of lines 50-105 for the target base name
bn. A marker first flushes, then activates its line only when the marker's
base file name equals the target (lines 53-63); every other line is dropped
when no line is active (lines 65-66); branch records overwrite the
accumulator slot for their id (lines 72-83); call/function annotations are
ignored (lines 85-86); any other line contributes its count token, if any,
to the accumulator (lines 88-105). -/
def step (bn : String) (s : ParseState) (l : GcovLine) : ParseState :=
  match l with
  | .marker n path =>
    let s1 := flush s
    if pathName path ≠ bn then { s1 with current_line := none }
    else { s1 with current_line := some n, counts := [], branches := [] }
  | .branchTaken id pct detail =>
    match s.current_line with
    | none => s
    | some _ => { s with branches := insertA id { pct := pct, detail := detail } s.branches }
  | .branchNever id detail =>
    match s.current_line with
    | none => s
    | some _ => { s with branches := insertA id { pct := 0, detail := detail } s.branches }
  | .callFunc => s
  | .plain raw =>
    match s.current_line with
    | none => s
    | some _ => { s with counts := s.counts ++ (plainToken raw).toList }

/-- Initial parse state (lines 21-24). -/
def initState : ParseState :=
  { results := [], current_line := none, counts := [], branches := [] }

/-- parse_gcov (lines 20-108) over the classified input lines: fold the loop
body over the input and flush the final pending accumulator. -/
def parse_gcov (source_basename : String) (input : List GcovLine) : CoverageMap :=
  (flush (input.foldl (step source_basename) initState)).results

/-- Pair of counters as accumulated by compute_summary (lines 112-113). -/
structure Totals where
  total : Nat
  covered : Nat
deriving DecidableEq

/-- Result of compute_summary (line 127). -/
structure Summary where
  lines : Totals
  branches : Totals
deriving DecidableEq

/-- Inner loop of compute_summary (lines 122-125): every branch record
counts one toward total, and one toward covered when its percentage is
positive. -/
def branchStep (bt : Totals) (b : Nat × BranchInfo) : Totals :=
  { total := bt.total + 1
  , covered := bt.covered + (if b.2.pct > 0 then 1 else 0) }

/-- Outer loop body of compute_summary (lines 115-125): non-executable
entries are skipped entirely; an executable entry counts one line, covered
when hits is a positive int, and folds its branch records into the branch
counters. -/
def summaryStep (acc : Summary) (p : Nat × Entry) : Summary :=
  if ¬ p.2.executable then acc
  else
    { lines :=
        { total := acc.lines.total + 1
        , covered := acc.lines.covered +
            (match p.2.hits with
             | some h => if h > 0 then 1 else 0
             | none => 0) }
    , branches := p.2.branches.foldl branchStep acc.branches }

/-- compute_summary (lines 111-127). -/
def compute_summary (coverage : CoverageMap) : Summary :=
  coverage.foldl summaryStep
    { lines := { total := 0, covered := 0 }, branches := { total := 0, covered := 0 } }

/-- Rounding of num/den to the nearest natural with ties to even, modelling
the .1f float formatting on line 133 applied to tenths of a percent; for the
magnitudes involved this agrees with IEEE-754 double formatting except at
exact ties perturbed by binary rounding, which no claim depends on. -/
def roundTiesEven (num den : Nat) : Nat :=
  let q := num / den
  let r := num % den
  if den < 2 * r then q + 1
  else if 2 * r < den then q
  else if q % 2 = 0 then q else q + 1

/-- Rendering of a tenths count as a one-decimal string. -/
def fmtTenths (tenths : Nat) : String :=
  toString (tenths / 10) ++ "." ++ toString (tenths % 10)

/-- percent (lines 130-133): the fixed string for a zero total, otherwise
covered/total*100 formatted to one decimal place with a percent sign. -/
def percent (covered total : Nat) : String :=
  if total = 0 then "100.0%"
  else fmtTenths (roundTiesEven (covered * 1000) total) ++ "%"

/-- Branch element of the JSON payload (lines 162-166). -/
structure JsonBranch where
  id : Nat
  pct : Nat
  detail : String
deriving DecidableEq

/-- One element of the JSON payload's lines array (lines 176-183). -/
structure JsonLine where
  line : Nat
  hits : Option Int
  executable : Bool
  status : String
  branches : List JsonBranch
  source : String
deriving DecidableEq

/-- Insertion into a list of branch pairs sorted by branch id. -/
def insertSorted (x : Nat × BranchInfo) : List (Nat × BranchInfo) → List (Nat × BranchInfo)
  | [] => [x]
  | y :: ys => if x.1 ≤ y.1 then x :: y :: ys else y :: insertSorted x ys

/-- Models sorted(branches) on line 160: the branch pairs ordered by id.
Ids are unique within an entry, so any comparison sort yields Python's
result. -/
def sortPairs : List (Nat × BranchInfo) → List (Nat × BranchInfo)
  | [] => []
  | x :: xs => insertSorted x (sortPairs xs)

/-- branch_items built on lines 159-166. -/
def jsonBranchItems (e : Entry) : List JsonBranch :=
  (sortPairs e.branches).map (fun b => { id := b.1, pct := b.2.pct, detail := b.2.detail })

/-- Status string assigned on lines 167-175. -/
def jsonStatus (e : Entry) : String :=
  let branch_items := jsonBranchItems e
  if ¬ e.executable then "noncode"
  else
    match e.hits with
    | some h =>
      if h > 0 then
        if branch_items ≠ [] ∧ branch_items.any (fun item => item.pct == 0) then "partial"
        else "covered"
      else "missed"
    | none => "missed"

/-- One JSON line record (lines 154-183): the map entry for the physical
line number, defaulting to a fresh non-executable entry. -/
def jsonLineOf (coverage : CoverageMap) (idx : Nat) (text : String) : JsonLine :=
  let entry := (lookupA idx coverage).getD defaultEntry
  { line := idx
  , hits := entry.hits
  , executable := entry.executable
  , status := jsonStatus entry
  , branches := jsonBranchItems entry
  , source := text }

/-- Loop of lines 154-183: one JSON record per physical source line,
enumerated from the given starting index. -/
def jsonLinesFrom (coverage : CoverageMap) : Nat → List String → List JsonLine
  | _, [] => []
  | idx, t :: ts => jsonLineOf coverage idx t :: jsonLinesFrom coverage (idx + 1) ts

/-- lines field of build_json_payload: enumeration starts at 1 (line 154). -/
def build_json_lines (coverage : CoverageMap) (cobol_lines : List String) : List JsonLine :=
  jsonLinesFrom coverage 1 cobol_lines

/-- Summary block of the JSON payload (lines 138-150). -/
structure JsonSummarySide where
  covered : Nat
  total : Nat
  percentStr : String
deriving DecidableEq

/-- build_json_payload (lines 136-184), with the lines array as above. -/
structure JsonPayload where
  lines_summary : JsonSummarySide
  branches_summary : JsonSummarySide
  lines : List JsonLine
deriving DecidableEq

/-- Assembly of the JSON payload from the computed summary and lines. -/
def build_json_payload (coverage : CoverageMap) (cobol_lines : List String) : JsonPayload :=
  let summary := compute_summary coverage
  { lines_summary :=
      { covered := summary.lines.covered
      , total := summary.lines.total
      , percentStr := percent summary.lines.covered summary.lines.total }
  , branches_summary :=
      { covered := summary.branches.covered
      , total := summary.branches.total
      , percentStr := percent summary.branches.covered summary.branches.total }
  , lines := build_json_lines coverage cobol_lines }

/-- Computed fields of one table row of render_html (lines 195-223); the
surrounding HTML text assembly is not modelled. -/
structure HtmlRow where
  css_class : String
  hits_display : String
  branch_covered : Nat
  branch_total : Nat
deriving DecidableEq

/-- Row computation of render_html lines 195-211: CSS class and hit display
from the map entry for the physical line, with the branch counters of lines
200-201. -/
def htmlRowOf (coverage : CoverageMap) (idx : Nat) : HtmlRow :=
  let entry := (lookupA idx coverage).getD defaultEntry
  let branch_total := entry.branches.length
  let branch_covered := entry.branches.countP (fun b => decide (b.2.pct > 0))
  if ¬ entry.executable then
    { css_class := "nonexec", hits_display := "-"
    , branch_covered := branch_covered, branch_total := branch_total }
  else
    match entry.hits with
    | some h =>
      if h > 0 then
        { css_class := if branch_total ≠ 0 ∧ branch_covered < branch_total then "partial" else "covered"
        , hits_display := toString h
        , branch_covered := branch_covered, branch_total := branch_total }
      else
        { css_class := "missed", hits_display := "0"
        , branch_covered := branch_covered, branch_total := branch_total }
    | none =>
      { css_class := "missed", hits_display := "0"
      , branch_covered := branch_covered, branch_total := branch_total }

/-- Row loop of render_html, enumerated from the given starting index. -/
def htmlRowsFrom (coverage : CoverageMap) : Nat → List String → List HtmlRow
  | _, [] => []
  | idx, _ :: ts => htmlRowOf coverage idx :: htmlRowsFrom coverage (idx + 1) ts

/-- Rows of render_html, one per physical source line, enumerated from 1
(line 195). -/
def render_rows (coverage : CoverageMap) (cobol_lines : List String) : List HtmlRow :=
  htmlRowsFrom coverage 1 cobol_lines

/-- Ghost tracker for the token specification: walks the same marker
discipline as the parse loop and collects, for one fixed line n, every count
token attached while n was the active line. Used only to state properties;
it shares plainToken and pathName with the parser. -/
def tokensStep (bn : String) (n : Nat) (p : Option Nat × List Int) (l : GcovLine) :
    Option Nat × List Int :=
  match l with
  | .marker m path => (if pathName path = bn then some m else none, p.2)
  | .plain raw =>
    match p.1 with
    | none => p
    | some cl => if cl = n then (p.1, p.2 ++ (plainToken raw).toList) else p
  | _ => p

/-- Count tokens attached to line n over the whole input. -/
def attachedTokens (bn : String) (n : Nat) (input : List GcovLine) : List Int :=
  (input.foldl (tokensStep bn n) (none, [])).2

/-- Line numbers of markers whose base file name matches the target. -/
def markersFor (bn : String) (input : List GcovLine) : List Nat :=
  input.filterMap (fun l =>
    match l with
    | .marker m path => if pathName path = bn then some m else none
    | _ => none)

/-- Stored taken-percentage for branch id on line n of a coverage map. -/
def getBranchPct (cov : CoverageMap) (n id : Nat) : Option Nat :=
  match lookupA n cov with
  | none => none
  | some e => (lookupA id e.branches).map (fun b => b.pct)

/-- Placeholder JSON record used as the default of list indexing in theorem
statements. -/
def dummyJsonLine : JsonLine :=
  { line := 0, hits := none, executable := false, status := "", branches := [], source := "" }

/-- Placeholder HTML row used as the default of list indexing in theorem
statements. -/
def dummyHtmlRow : HtmlRow :=
  { css_class := "", hits_display := "", branch_covered := 0, branch_total := 0 }

/-- Spec-side count of executable lines, following the specification words
for the summary: total counts the executable entries of the map. -/
def specLinesTotal (cov : CoverageMap) : Nat :=
  (cov.filter (fun p => p.2.executable)).length

/-- Spec-side count of covered lines: executable entries with positive
integer hits. -/
def specLinesCovered (cov : CoverageMap) : Nat :=
  (cov.filter (fun p => p.2.executable)).countP
    (fun p => match p.2.hits with | some h => decide (h > 0) | none => false)

/-- Spec-side branch total: branch entries summed over executable lines. -/
def specBranchesTotal (cov : CoverageMap) : Nat :=
  ((cov.filter (fun p => p.2.executable)).map (fun p => p.2.branches.length)).sum

/-- Spec-side covered branches: branch entries with positive percentage,
summed over executable lines. -/
def specBranchesCovered (cov : CoverageMap) : Nat :=
  ((cov.filter (fun p => p.2.executable)).map
    (fun p => p.2.branches.countP (fun b => decide (b.2.pct > 0)))).sum

/-! Helper lemmas about the association-list operations. -/

theorem lookupA_insertA_self {α : Type} (k : Nat) (v : α) (l : List (Nat × α)) :
    lookupA k (insertA k v l) = some v := by
  induction l with
  | nil => simp [insertA, lookupA]
  | cons p rest ih =>
    by_cases h : p.1 = k
    · simp [insertA, h, lookupA]
    · simp [insertA, h, lookupA, ih]

theorem lookupA_insertA_ne {α : Type} {k k' : Nat} (h : k' ≠ k) (v : α) (l : List (Nat × α)) :
    lookupA k (insertA k' v l) = lookupA k l := by
  induction l with
  | nil => simp [insertA, lookupA, h]
  | cons p rest ih =>
    by_cases hp : p.1 = k'
    · have hpk : p.1 ≠ k := by rw [hp]; exact h
      simp [insertA, hp, lookupA, hpk, h]
    · simp [insertA, hp, lookupA, ih]

theorem insertA_idem {α : Type} (k : Nat) (v : α) (l : List (Nat × α)) :
    insertA k v (insertA k v l) = insertA k v l := by
  induction l with
  | nil => simp [insertA]
  | cons p rest ih =>
    by_cases h : p.1 = k
    · simp [insertA, h]
    · simp [insertA, h, ih]

/-! Helper lemmas about the branch merge of flush. -/

theorem mergeBranch_hits (e : Entry) (b : Nat × BranchInfo) :
    (mergeBranch e b).hits = e.hits := by
  unfold mergeBranch
  cases lookupA b.1 e.branches with
  | none => rfl
  | some ex => by_cases h : b.2.pct > ex.pct <;> simp [h]

theorem mergeBranch_executable (e : Entry) (b : Nat × BranchInfo) :
    (mergeBranch e b).executable = e.executable := by
  unfold mergeBranch
  cases lookupA b.1 e.branches with
  | none => rfl
  | some ex => by_cases h : b.2.pct > ex.pct <;> simp [h]

theorem foldl_mergeBranch_hits (bs : List (Nat × BranchInfo)) (e : Entry) :
    (bs.foldl mergeBranch e).hits = e.hits := by
  induction bs generalizing e with
  | nil => rfl
  | cons b rest ih => rw [List.foldl_cons, ih, mergeBranch_hits]

theorem foldl_mergeBranch_executable (bs : List (Nat × BranchInfo)) (e : Entry) :
    (bs.foldl mergeBranch e).executable = e.executable := by
  induction bs generalizing e with
  | nil => rfl
  | cons b rest ih => rw [List.foldl_cons, ih, mergeBranch_executable]

theorem lookupA_mergeBranch_ne {k : Nat} (e : Entry) (b : Nat × BranchInfo) (h : b.1 ≠ k) :
    lookupA k (mergeBranch e b).branches = lookupA k e.branches := by
  unfold mergeBranch
  cases lookupA b.1 e.branches with
  | none => simp [lookupA_insertA_ne h]
  | some ex =>
    by_cases hgt : b.2.pct > ex.pct <;> simp [hgt, lookupA_insertA_ne h]

theorem lookupA_foldl_mergeBranch_not_mem (bs : List (Nat × BranchInfo)) (e : Entry)
    {k : Nat} (h : k ∉ bs.map Prod.fst) :
    lookupA k (bs.foldl mergeBranch e).branches = lookupA k e.branches := by
  induction bs generalizing e with
  | nil => rfl
  | cons b rest ih =>
    simp only [List.map_cons, List.mem_cons, not_or] at h
    rw [List.foldl_cons, ih _ h.2, lookupA_mergeBranch_ne _ _ (fun hb => h.1 hb.symm)]

theorem foldl_mergeBranch_ge (bs : List (Nat × BranchInfo)) (e : Entry)
    (hnd : (bs.map Prod.fst).Nodup) {k : Nat} {v : BranchInfo} (hmem : (k, v) ∈ bs) :
    ∃ w, lookupA k (bs.foldl mergeBranch e).branches = some w ∧ v.pct ≤ w.pct := by
  induction bs generalizing e with
  | nil => cases hmem
  | cons b rest ih =>
    rw [List.foldl_cons]
    rw [List.map_cons, List.nodup_cons] at hnd
    rcases List.mem_cons.mp hmem with hb | hb
    · subst hb
      rw [lookupA_foldl_mergeBranch_not_mem _ _ hnd.1]
      unfold mergeBranch
      cases hx : lookupA (k, v).1 e.branches with
      | none =>
        refine ⟨v, ?_, le_refl _⟩
        simp [hx, lookupA_insertA_self]
      | some ex =>
        by_cases hgt : v.pct > ex.pct
        · refine ⟨v, ?_, le_refl _⟩
          simp [hx, hgt, lookupA_insertA_self]
        · refine ⟨ex, ?_, by omega⟩
          simp [hx, hgt]
    · exact ih (mergeBranch e b) hnd.2 hb

theorem foldl_mergeBranch_noop (bs : List (Nat × BranchInfo)) (e : Entry)
    (h : ∀ p ∈ bs, ∃ w, lookupA p.1 e.branches = some w ∧ p.2.pct ≤ w.pct) :
    bs.foldl mergeBranch e = e := by
  induction bs with
  | nil => rfl
  | cons b rest ih =>
    obtain ⟨w, hw, hle⟩ := h b (List.mem_cons_self b rest)
    have hb : mergeBranch e b = e := by
      unfold mergeBranch
      rw [hw]
      simp [show ¬ b.2.pct > w.pct by omega]
    rw [List.foldl_cons, hb, ih (fun p hp => h p (List.mem_cons_of_mem _ hp))]

/-! Helper lemmas about listMax and mergeHits. -/

theorem foldl_max_append (l : List Int) (a v : Int) :
    (l ++ [v]).foldl max a = max (l.foldl max a) v := by
  induction l generalizing a with
  | nil => rfl
  | cons x xs ih =>
    simp only [List.cons_append, List.foldl_cons]
    exact ih (max a x)

theorem listMax_append_singleton {l : List Int} (h : l ≠ []) (v : Int) :
    listMax (l ++ [v]) = max (listMax l) v := by
  cases l with
  | nil => cases h rfl
  | cons c cs => simp [listMax, foldl_max_append]

theorem foldl_max_mem (cs : List Int) (c : Int) :
    cs.foldl max c = c ∨ cs.foldl max c ∈ cs := by
  induction cs generalizing c with
  | nil => left; rfl
  | cons x xs ih =>
    rw [List.foldl_cons]
    rcases ih (max c x) with h | h
    · rcases max_choice c x with hm | hm
      · left; rw [h, hm]
      · right; rw [h, hm]; exact List.mem_cons_self _ _
    · right; exact List.mem_cons_of_mem _ h

theorem listMax_mem {l : List Int} (h : l ≠ []) : listMax l ∈ l := by
  cases l with
  | nil => cases h rfl
  | cons c cs =>
    rcases foldl_max_mem cs c with hm | hm
    · rw [listMax, hm]; exact List.mem_cons_self _ _
    · exact List.mem_cons_of_mem _ (by rw [listMax]; exact hm)

theorem mergeHits_some (a y : Int) : mergeHits (some a) y = max a y := by
  simp only [mergeHits, max_def]
  split <;> split <;> omega

theorem mergeHits_max (h : Option Int) (x v : Int) :
    mergeHits h (max x v) = max (mergeHits h x) v := by
  cases h with
  | none => rfl
  | some a => rw [mergeHits_some, mergeHits_some, max_assoc]

theorem mergeHits_ge (existing : Option Int) (hit_value : Int) :
    hit_value ≤ mergeHits existing hit_value := by
  cases existing with
  | none => exact le_refl _
  | some a => rw [mergeHits_some]; exact le_max_right _ _

theorem flush_none {s : ParseState} (h : s.current_line = none) : flush s = s := by
  unfold flush
  rw [h]

/-! Characterization of the entry stored by flush, split into its hit and
executability components, which do not depend on the branch accumulator. -/

/-- Hits component of the entry flush stores for line cl. -/
def entryHitsOf (cl : Nat) (results : CoverageMap) (counts : List Int) : Option Int :=
  match counts with
  | [] => ((lookupA cl results).getD defaultEntry).hits
  | c :: cs => some (mergeHits ((lookupA cl results).getD defaultEntry).hits (listMax (c :: cs)))

/-- Executability component of the entry flush stores for line cl. -/
def entryExecOf (cl : Nat) (results : CoverageMap) (counts : List Int) : Bool :=
  match counts with
  | [] => ((lookupA cl results).getD defaultEntry).executable
  | _ :: _ => true

theorem flushedEntry_hits (cl : Nat) (s : ParseState) :
    (flushedEntry cl s).hits = entryHitsOf cl s.results s.counts := by
  simp only [flushedEntry, foldl_mergeBranch_hits]
  cases hc : s.counts <;> simp [applyCounts, entryHitsOf, hc]

theorem flushedEntry_executable (cl : Nat) (s : ParseState) :
    (flushedEntry cl s).executable = entryExecOf cl s.results s.counts := by
  simp only [flushedEntry, foldl_mergeBranch_executable]
  cases hc : s.counts <;> simp [applyCounts, entryExecOf, hc]

theorem entryExecOf_ne_nil (cl : Nat) (r : CoverageMap) {counts : List Int} (h : counts ≠ []) :
    entryExecOf cl r counts = true := by
  cases counts with
  | nil => cases h rfl
  | cons c cs => rfl

theorem flushedEntry_trivial (s : ParseState) (cl : Nat) (hc : s.counts = [])
    (hb : s.branches = []) :
    flushedEntry cl s = (lookupA cl s.results).getD defaultEntry := by
  simp only [flushedEntry, hc, hb, List.foldl_nil, applyCounts]

theorem lookupA_flush (s : ParseState) (cl n : Nat) (h : s.current_line = some cl) :
    lookupA n (flush s).results =
      if cl = n then some (flushedEntry cl s) else lookupA n s.results := by
  by_cases hc : cl = n
  · subst hc
    simp [flush, h, lookupA_insertA_self]
  · simp [flush, h, lookupA_insertA_ne hc, hc]

/-! Specification relation for the token-attachment invariant behind the
executability claims. -/

/-- An entry agrees with the list of count tokens attached to its line:
executable exactly when at least one token was attached, and hits is the
maximum token (None when no token was attached). -/
def GoodE (e : Entry) (toks : List Int) : Prop :=
  (e.executable = true ↔ toks ≠ []) ∧
  (toks = [] → e.hits = none) ∧
  (toks ≠ [] → e.hits = some (listMax toks))

/-- Lifted to the optional map entry: an absent entry requires no tokens. -/
def GoodOpt : Option Entry → List Int → Prop
  | none, toks => toks = []
  | some e, toks => GoodE e toks

/-- Invariant tying the parse state to the ghost token tracker for one line:
both walkers agree on the active line, and the entry the map would hold for
line n if the accumulator were flushed now agrees with the tokens collected
so far. -/
def TokRel (bn : String) (n : Nat) (s : ParseState) (g : Option Nat × List Int) : Prop :=
  s.current_line = g.1 ∧ GoodOpt (lookupA n (flush s).results) g.2

theorem GoodE_congr {e e' : Entry} {t : List Int} (hg : GoodE e t)
    (hh : e'.hits = e.hits) (hx : e'.executable = e.executable) : GoodE e' t := by
  unfold GoodE at hg ⊢
  rw [hh, hx]
  exact hg

theorem goodOpt_default : GoodOpt (some defaultEntry) [] := by
  refine ⟨by simp [defaultEntry], fun _ => rfl, fun hne => absurd rfl hne⟩

theorem goodOpt_update_branches (s : ParseState) (cl n : Nat) (hc : s.current_line = some cl)
    (bs' : List (Nat × BranchInfo)) (t : List Int)
    (hgood : GoodOpt (lookupA n (flush s).results) t) :
    GoodOpt (lookupA n (flush { s with branches := bs' }).results) t := by
  rw [lookupA_flush s cl n hc] at hgood
  rw [lookupA_flush { s with branches := bs' } cl n (by simp [hc])]
  by_cases hcn : cl = n
  · rw [if_pos hcn] at hgood ⊢
    exact GoodE_congr hgood
      (by rw [flushedEntry_hits, flushedEntry_hits])
      (by rw [flushedEntry_executable, flushedEntry_executable])
  · rw [if_neg hcn] at hgood ⊢
    exact hgood

theorem goodOpt_append_count (s : ParseState) (cl n : Nat) (hc : s.current_line = some cl)
    (tok : Option Int) (t : List Int)
    (hgood : GoodOpt (lookupA n (flush s).results) t) :
    GoodOpt (lookupA n (flush { s with counts := s.counts ++ tok.toList }).results)
      (if cl = n then t ++ tok.toList else t) := by
  rw [lookupA_flush s cl n hc] at hgood
  rw [lookupA_flush { s with counts := s.counts ++ tok.toList } cl n (by simp [hc])]
  by_cases hcn : cl = n
  · rw [if_pos hcn] at hgood ⊢
    rw [if_pos hcn]
    cases htok : tok with
    | none =>
      simp only [Option.toList_none, List.append_nil]
      exact hgood
    | some v =>
      simp only [Option.toList_some]
      obtain ⟨hiff, hnil, hcons⟩ := hgood
      refine ⟨?_, ?_, ?_⟩
      · rw [flushedEntry_executable]
        simp only [entryExecOf_ne_nil cl _ (by simp : s.counts ++ [v] ≠ [])]
        simp
      · intro habs
        simp at habs
      · intro _
        rw [flushedEntry_hits]
        by_cases htn : t = []
        · have hexe : (flushedEntry cl s).executable = false := by
            rw [htn] at hiff
            simp at hiff
            exact hiff
          have hsc : s.counts = [] := by
            by_contra hne
            rw [flushedEntry_executable, entryExecOf_ne_nil cl _ hne] at hexe
            cases hexe
          have hhits : (flushedEntry cl s).hits = none := hnil htn
          rw [flushedEntry_hits, hsc] at hhits
          rw [hsc, htn]
          simp only [List.nil_append, entryHitsOf]
          rw [show ((lookupA cl s.results).getD defaultEntry).hits = none from hhits]
          simp [mergeHits, listMax]
        · have hhits := hcons htn
          rw [flushedEntry_hits] at hhits
          rw [listMax_append_singleton htn]
          cases hsc : s.counts with
          | nil =>
            rw [hsc] at hhits
            simp only [List.nil_append, entryHitsOf] at hhits ⊢
            rw [hhits, mergeHits_some]
            rfl
          | cons a as =>
            rw [hsc] at hhits
            simp only [entryHitsOf, List.cons_append] at hhits ⊢
            have hsome := Option.some.inj hhits
            rw [show (a : Int) :: (as ++ [v]) = (a :: as) ++ [v] by simp,
              listMax_append_singleton (by simp : (a : Int) :: as ≠ []),
              mergeHits_max, hsome]
  · rw [if_neg hcn] at hgood ⊢
    rw [if_neg hcn]
    exact hgood

theorem tokRel_step (bn : String) (n : Nat) {s : ParseState} {g : Option Nat × List Int}
    (l : GcovLine) (h : TokRel bn n s g) :
    TokRel bn n (step bn s l) (tokensStep bn n g l) := by
  obtain ⟨hcur, hgood⟩ := h
  cases l with
  | marker m path =>
    by_cases hp : pathName path = bn
    · have hstep : step bn s (GcovLine.marker m path) =
          { flush s with current_line := some m, counts := [], branches := [] } := by
        simp [step, hp]
      refine ⟨by rw [hstep]; simp [tokensStep, hp], ?_⟩
      rw [hstep]
      simp only [tokensStep]
      rw [lookupA_flush { flush s with current_line := some m, counts := [], branches := [] }
        m n rfl]
      rw [flushedEntry_trivial _ _ rfl rfl]
      simp only []
      by_cases hmn : m = n
      · subst hmn
        rw [if_pos rfl]
        cases hx : lookupA m (flush s).results with
        | none =>
          rw [hx] at hgood
          have hg2 : g.2 = [] := hgood
          rw [hg2]
          simpa using goodOpt_default
        | some e =>
          rw [hx] at hgood
          simpa using hgood
      · rw [if_neg hmn]
        exact hgood
    · have hstep : step bn s (GcovLine.marker m path) =
          { flush s with current_line := none } := by
        simp [step, hp]
      refine ⟨by rw [hstep]; simp [tokensStep, hp], ?_⟩
      rw [hstep]
      simp only [tokensStep]
      rw [flush_none (s := { flush s with current_line := none }) rfl]
      exact hgood
  | branchTaken id pct d =>
    cases hc : s.current_line with
    | none =>
      have hstep : step bn s (GcovLine.branchTaken id pct d) = s := by simp [step, hc]
      exact ⟨by rw [hstep]; exact hcur, by rw [hstep]; exact hgood⟩
    | some cl =>
      have hstep : step bn s (GcovLine.branchTaken id pct d) =
          { s with branches := insertA id { pct := pct, detail := d } s.branches } := by
        simp [step, hc]
      refine ⟨by rw [hstep]; simpa using hcur, ?_⟩
      rw [hstep]
      exact goodOpt_update_branches s cl n hc _ g.2 hgood
  | branchNever id d =>
    cases hc : s.current_line with
    | none =>
      have hstep : step bn s (GcovLine.branchNever id d) = s := by simp [step, hc]
      exact ⟨by rw [hstep]; exact hcur, by rw [hstep]; exact hgood⟩
    | some cl =>
      have hstep : step bn s (GcovLine.branchNever id d) =
          { s with branches := insertA id { pct := 0, detail := d } s.branches } := by
        simp [step, hc]
      refine ⟨by rw [hstep]; simpa using hcur, ?_⟩
      rw [hstep]
      exact goodOpt_update_branches s cl n hc _ g.2 hgood
  | callFunc => exact ⟨hcur, hgood⟩
  | plain raw =>
    cases hc : s.current_line with
    | none =>
      have hstep : step bn s (GcovLine.plain raw) = s := by simp [step, hc]
      have htok : tokensStep bn n g (GcovLine.plain raw) = g := by
        simp [tokensStep, ← hcur, hc]
      exact ⟨by rw [hstep, htok]; exact hcur, by rw [hstep, htok]; exact hgood⟩
    | some cl =>
      have hstep : step bn s (GcovLine.plain raw) =
          { s with counts := s.counts ++ (plainToken raw).toList } := by
        simp [step, hc]
      have htok : tokensStep bn n g (GcovLine.plain raw) =
          if cl = n then (g.1, g.2 ++ (plainToken raw).toList) else g := by
        simp [tokensStep, ← hcur, hc]
      refine ⟨?_, ?_⟩
      · rw [hstep, htok]
        by_cases hcn : cl = n
        · rw [if_pos hcn]
          simpa using hcur
        · rw [if_neg hcn]
          simpa using hcur
      · rw [hstep, htok]
        have := goodOpt_append_count s cl n hc (plainToken raw) g.2 hgood
        by_cases hcn : cl = n
        · rw [if_pos hcn] at this ⊢
          simpa using this
        · rw [if_neg hcn] at this ⊢
          exact this

theorem tokRel_foldl (bn : String) (n : Nat) :
    ∀ (input : List GcovLine) (s : ParseState) (g : Option Nat × List Int),
      TokRel bn n s g →
      TokRel bn n (input.foldl (step bn) s) (input.foldl (tokensStep bn n) g) := by
  intro input
  induction input with
  | nil => intro s g h; exact h
  | cons l rest ih =>
    intro s g h
    exact ih _ _ (tokRel_step bn n l h)

theorem tokRel_init (bn : String) (n : Nat) : TokRel bn n initState (none, []) := by
  refine ⟨rfl, ?_⟩
  rw [flush_none (s := initState) rfl]
  simp [initState, lookupA, GoodOpt]

theorem parse_goodOpt (bn : String) (n : Nat) (input : List GcovLine) :
    GoodOpt (lookupA n (parse_gcov bn input)) (attachedTokens bn n input) := by
  have := (tokRel_foldl bn n input initState (none, []) (tokRel_init bn n)).2
  exact this

/-! Machinery for the marker-filtering claim: a line with no matching marker
never enters the map. -/

theorem lookupA_flush_preserved {s : ParseState} {n : Nat}
    (h1 : lookupA n s.results = none) (h2 : s.current_line ≠ some n) :
    lookupA n (flush s).results = none := by
  cases hc : s.current_line with
  | none => rw [flush_none hc]; exact h1
  | some cl =>
    rw [lookupA_flush s cl n hc, if_neg (fun hcl => h2 (by rw [hc, hcl]))]
    exact h1

theorem markersFor_cons_marker (bn : String) (m : Nat) (path : String) (rest : List GcovLine) :
    markersFor bn (GcovLine.marker m path :: rest) =
      if pathName path = bn then m :: markersFor bn rest else markersFor bn rest := by
  by_cases hp : pathName path = bn <;> simp [markersFor, List.filterMap_cons, hp]

theorem notMarked_foldl (bn : String) (n : Nat) :
    ∀ (input : List GcovLine) (s : ParseState),
      lookupA n s.results = none → s.current_line ≠ some n → n ∉ markersFor bn input →
      lookupA n (flush (input.foldl (step bn) s)).results = none := by
  intro input
  induction input with
  | nil =>
    intro s h1 h2 _
    exact lookupA_flush_preserved h1 h2
  | cons l rest ih =>
    intro s h1 h2 hm
    rw [List.foldl_cons]
    cases l with
    | marker m path =>
      rw [markersFor_cons_marker] at hm
      by_cases hp : pathName path = bn
      · rw [if_pos hp] at hm
        simp only [List.mem_cons, not_or] at hm
        have hstep : step bn s (GcovLine.marker m path) =
            { flush s with current_line := some m, counts := [], branches := [] } := by
          simp [step, hp]
        rw [hstep]
        refine ih _ ?_ ?_ hm.2
        · exact lookupA_flush_preserved h1 h2
        · simp only []
          intro hsm
          exact hm.1 (Option.some.inj hsm).symm
      · rw [if_neg hp] at hm
        have hstep : step bn s (GcovLine.marker m path) =
            { flush s with current_line := none } := by
          simp [step, hp]
        rw [hstep]
        refine ih _ ?_ (by simp) hm
        exact lookupA_flush_preserved h1 h2
    | branchTaken id pct d =>
      have hml : n ∉ markersFor bn rest := by simpa [markersFor, List.filterMap_cons] using hm
      cases hc : s.current_line with
      | none => exact ih _ (by simpa [step, hc] using h1) (by simp [step, hc, hc]) hml
      | some cl =>
        have hstep : step bn s (GcovLine.branchTaken id pct d) =
            { s with branches := insertA id { pct := pct, detail := d } s.branches } := by
          simp [step, hc]
        rw [hstep]
        exact ih _ h1 (by simpa using h2) hml
    | branchNever id d =>
      have hml : n ∉ markersFor bn rest := by simpa [markersFor, List.filterMap_cons] using hm
      cases hc : s.current_line with
      | none => exact ih _ (by simpa [step, hc] using h1) (by simp [step, hc, hc]) hml
      | some cl =>
        have hstep : step bn s (GcovLine.branchNever id d) =
            { s with branches := insertA id { pct := 0, detail := d } s.branches } := by
          simp [step, hc]
        rw [hstep]
        exact ih _ h1 (by simpa using h2) hml
    | callFunc =>
      have hml : n ∉ markersFor bn rest := by simpa [markersFor, List.filterMap_cons] using hm
      exact ih _ h1 h2 hml
    | plain raw =>
      have hml : n ∉ markersFor bn rest := by simpa [markersFor, List.filterMap_cons] using hm
      cases hc : s.current_line with
      | none => exact ih _ (by simpa [step, hc] using h1) (by simp [step, hc, hc]) hml
      | some cl =>
        have hstep : step bn s (GcovLine.plain raw) =
            { s with counts := s.counts ++ (plainToken raw).toList } := by
          simp [step, hc]
        rw [hstep]
        exact ih _ h1 (by simpa using h2) hml

theorem parse_not_marked (bn : String) (input : List GcovLine) (n : Nat)
    (h : n ∉ markersFor bn input) :
    lookupA n (parse_gcov bn input) = none := by
  exact notMarked_foldl bn n input initState rfl (by simp [initState]) h

/-! Characterization of compute_summary in terms of the spec-side counts. -/

theorem branchStep_foldl (bs : List (Nat × BranchInfo)) (bt : Totals) :
    bs.foldl branchStep bt =
      { total := bt.total + bs.length
      , covered := bt.covered + bs.countP (fun b => decide (b.2.pct > 0)) } := by
  induction bs generalizing bt with
  | nil =>
    obtain ⟨a, b⟩ := bt
    simp
  | cons b rest ih =>
    rw [List.foldl_cons, ih]
    simp only [branchStep, List.length_cons, List.countP_cons]
    by_cases hb : b.2.pct > 0 <;> simp [hb] <;> omega

theorem summary_foldl (cov : CoverageMap) (acc : Summary) :
    cov.foldl summaryStep acc =
      { lines := { total := acc.lines.total + specLinesTotal cov
                 , covered := acc.lines.covered + specLinesCovered cov }
      , branches := { total := acc.branches.total + specBranchesTotal cov
                    , covered := acc.branches.covered + specBranchesCovered cov } } := by
  induction cov generalizing acc with
  | nil =>
    obtain ⟨⟨a, b⟩, ⟨c, d⟩⟩ := acc
    simp [specLinesTotal, specLinesCovered, specBranchesTotal, specBranchesCovered]
  | cons p rest ih =>
    rw [List.foldl_cons, ih]
    by_cases hx : p.2.executable
    · simp only [summaryStep, hx, not_true, if_neg (by simp : ¬ ¬ True)]
      simp only [specLinesTotal, specLinesCovered, specBranchesTotal, specBranchesCovered,
        List.filter_cons, hx, if_pos, List.length_cons, List.countP_cons, List.map_cons,
        List.sum_cons, branchStep_foldl]
      rcases hh : p.2.hits with _ | h
      · simp [hh, Summary.mk.injEq, Totals.mk.injEq]
        omega
      · by_cases hpos : h > 0 <;>
          simp [hh, hpos, Summary.mk.injEq, Totals.mk.injEq] <;> omega
    · simp only [summaryStep, hx]
      simp only [specLinesTotal, specLinesCovered, specBranchesTotal, specBranchesCovered,
        List.filter_cons, hx]
      simp [hx]

theorem compute_summary_eq (cov : CoverageMap) :
    compute_summary cov =
      { lines := { total := specLinesTotal cov, covered := specLinesCovered cov }
      , branches := { total := specBranchesTotal cov, covered := specBranchesCovered cov } } := by
  unfold compute_summary
  rw [summary_foldl]
  simp

theorem specLines_le (cov : CoverageMap) : specLinesCovered cov ≤ specLinesTotal cov := by
  unfold specLinesCovered specLinesTotal
  exact List.countP_le_length _

theorem specBranches_le (cov : CoverageMap) :
    specBranchesCovered cov ≤ specBranchesTotal cov := by
  unfold specBranchesCovered specBranchesTotal
  induction cov.filter (fun p => p.2.executable) with
  | nil => simp
  | cons p rest ih =>
    simp only [List.map_cons, List.sum_cons]
    exact Nat.add_le_add (List.countP_le_length _) ih

/-! Permutation facts about the branch sorting used by the JSON export. -/

theorem insertSorted_perm (x : Nat × BranchInfo) (l : List (Nat × BranchInfo)) :
    List.Perm (insertSorted x l) (x :: l) := by
  induction l with
  | nil => exact List.Perm.refl _
  | cons y ys ih =>
    by_cases h : x.1 ≤ y.1
    · simp [insertSorted, h]
    · simp only [insertSorted, if_neg h]
      exact (List.Perm.cons y ih).trans (List.Perm.swap x y ys)

theorem sortPairs_perm (l : List (Nat × BranchInfo)) : List.Perm (sortPairs l) l := by
  induction l with
  | nil => exact List.Perm.refl _
  | cons x xs ih => exact (insertSorted_perm x (sortPairs xs)).trans (List.Perm.cons x ih)

theorem sortPairs_eq_nil_iff (l : List (Nat × BranchInfo)) : sortPairs l = [] ↔ l = [] := by
  constructor
  · intro h
    have hl := (sortPairs_perm l).length_eq
    rw [h] at hl
    exact List.length_eq_zero.mp hl.symm
  · intro h
    rw [h]
    rfl

theorem jsonBranchItems_eq_nil_iff (e : Entry) : jsonBranchItems e = [] ↔ e.branches = [] := by
  unfold jsonBranchItems
  rw [List.map_eq_nil_iff, sortPairs_eq_nil_iff]

theorem jsonBranchItems_any_zero (e : Entry) :
    (jsonBranchItems e).any (fun item => item.pct == 0) = true ↔
      ∃ b ∈ e.branches, b.2.pct = 0 := by
  unfold jsonBranchItems
  rw [List.any_eq_true]
  constructor
  · rintro ⟨item, hitem, hpb⟩
    obtain ⟨b, hb, rfl⟩ := List.mem_map.mp hitem
    exact ⟨b, (sortPairs_perm e.branches).mem_iff.mp hb, by simpa using hpb⟩
  · rintro ⟨b, hb, hpb⟩
    refine ⟨{ id := b.1, pct := b.2.pct, detail := b.2.detail }, ?_, by simpa using hpb⟩
    exact List.mem_map.mpr ⟨b, (sortPairs_perm e.branches).mem_iff.mpr hb, rfl⟩

theorem countP_lt_length_iff (e : Entry) :
    e.branches.countP (fun b => decide (b.2.pct > 0)) < e.branches.length ↔
      ∃ b ∈ e.branches, b.2.pct = 0 := by
  have hle : e.branches.countP (fun b => decide (b.2.pct > 0)) ≤ e.branches.length :=
    List.countP_le_length _
  constructor
  · intro hlt
    by_contra hall
    push_neg at hall
    have heq : e.branches.countP (fun b => decide (b.2.pct > 0)) = e.branches.length := by
      rw [List.countP_eq_length]
      intro b hb
      simpa using Nat.pos_of_ne_zero (hall b hb)
    omega
  · rintro ⟨b, hb, hpb⟩
    have hne : e.branches.countP (fun b => decide (b.2.pct > 0)) ≠ e.branches.length := by
      intro heq
      have := List.countP_eq_length.mp heq b hb
      simp [hpb] at this
    omega

/-- Core agreement between the condition tested by render_html (line 207)
and the one tested by build_json_payload (line 170). -/
theorem partial_cond_iff (e : Entry) :
    (jsonBranchItems e ≠ [] ∧ (jsonBranchItems e).any (fun item => item.pct == 0) = true) ↔
      (e.branches.length ≠ 0 ∧
        e.branches.countP (fun b => decide (b.2.pct > 0)) < e.branches.length) := by
  rw [jsonBranchItems_any_zero, countP_lt_length_iff]
  constructor
  · rintro ⟨h1, h2⟩
    refine ⟨?_, h2⟩
    intro hlen
    exact h1 ((jsonBranchItems_eq_nil_iff e).mpr (List.length_eq_zero.mp hlen))
  · rintro ⟨h1, h2⟩
    refine ⟨?_, h2⟩
    intro hnil
    exact h1 (by rw [(jsonBranchItems_eq_nil_iff e).mp hnil]; rfl)

theorem ite_str_ne {c : Prop} [Decidable c] {x y z : String} (hx : x ≠ z) (hy : y ≠ z) :
    ¬ ((if c then x else y) = z) := by
  by_cases hc : c
  · rw [if_pos hc]; exact hx
  · rw [if_neg hc]; exact hy

/-- Entry-level agreement of the HTML row class and the JSON status for the
same physical line of the same coverage map. -/
theorem row_json_agree (cov : CoverageMap) (idx : Nat) (text : String) :
    ((htmlRowOf cov idx).css_class = "nonexec" ↔ (jsonLineOf cov idx text).status = "noncode") ∧
    ((htmlRowOf cov idx).css_class = "covered" ↔ (jsonLineOf cov idx text).status = "covered") ∧
    ((htmlRowOf cov idx).css_class = "partial" ↔ (jsonLineOf cov idx text).status = "partial") ∧
    ((htmlRowOf cov idx).css_class = "missed" ↔ (jsonLineOf cov idx text).status = "missed") := by
  unfold htmlRowOf jsonLineOf jsonStatus
  set e := (lookupA idx cov).getD defaultEntry with he
  by_cases hx : e.executable = true
  · cases hh : e.hits with
    | none => simp [hx, hh]
    | some h =>
      by_cases hpos : h > 0
      · simp only [partial_cond_iff]
        by_cases hcond : (e.branches.length ≠ 0 ∧
            e.branches.countP (fun b => decide (b.2.pct > 0)) < e.branches.length)
        · simp [hx, hh, hpos, hcond]
        · simp [hx, hh, hpos, hcond]
          exact iff_of_false (ite_str_ne (by decide) (by decide))
            (ite_str_ne (by decide) (by decide))
      · simp [hx, hh, hpos]
  · simp [hx]

theorem jsonLinesFrom_getD (cov : CoverageMap) :
    ∀ (ts : List String) (idx i : Nat), i < ts.length →
      (jsonLinesFrom cov idx ts).getD i dummyJsonLine =
        jsonLineOf cov (idx + i) (ts.getD i "") := by
  intro ts
  induction ts with
  | nil =>
    intro idx i h
    simp at h
  | cons t rest ih =>
    intro idx i h
    cases i with
    | zero => simp [jsonLinesFrom]
    | succ j =>
      have hj : j < rest.length := by
        simpa using Nat.lt_of_succ_lt_succ (by simpa using h)
      simp only [jsonLinesFrom, List.getD_cons_succ]
      rw [ih (idx + 1) j hj]
      congr 1
      omega

theorem htmlRowsFrom_getD (cov : CoverageMap) :
    ∀ (ts : List String) (idx i : Nat), i < ts.length →
      (htmlRowsFrom cov idx ts).getD i dummyHtmlRow = htmlRowOf cov (idx + i) := by
  intro ts
  induction ts with
  | nil =>
    intro idx i h
    simp at h
  | cons t rest ih =>
    intro idx i h
    cases i with
    | zero => simp [htmlRowsFrom]
    | succ j =>
      have hj : j < rest.length := by
        simpa using Nat.lt_of_succ_lt_succ (by simpa using h)
      simp only [htmlRowsFrom, List.getD_cons_succ]
      rw [ih (idx + 1) j hj]
      congr 1
      omega

/-! Machinery for the flush idempotence claim. -/

theorem entry_update_eq (E : Entry) (hx : E.executable = true) {v : Option Int}
    (hh : E.hits = v) : { E with executable := true, hits := v } = E := by
  obtain ⟨a, b, c⟩ := E
  simp only at hx hh
  subst hh
  subst hx
  rfl

theorem flushedEntry_restore (s : ParseState) (n : Nat) (h : s.current_line = some n)
    (hnd : (s.branches.map Prod.fst).Nodup) :
    flushedEntry n { results := (flush s).results, current_line := s.current_line
                   , counts := s.counts, branches := s.branches } = flushedEntry n s := by
  have hE : lookupA n (flush s).results = some (flushedEntry n s) := by
    rw [lookupA_flush s n n h, if_pos rfl]
  have hstep1 : applyCounts (flushedEntry n s) s.counts = flushedEntry n s := by
    cases hsc : s.counts with
    | nil => rfl
    | cons c cs =>
      have hEx : (flushedEntry n s).executable = true := by
        rw [flushedEntry_executable, hsc]
        rfl
      have hh2 : (flushedEntry n s).hits =
          some (mergeHits (flushedEntry n s).hits (listMax (c :: cs))) := by
        rw [flushedEntry_hits, hsc]
        simp only [entryHitsOf]
        rw [mergeHits_some]
        exact congrArg some (max_eq_left (mergeHits_ge _ _)).symm
      simp only [applyCounts]
      exact entry_update_eq _ hEx hh2
  have hstep2 : s.branches.foldl mergeBranch (flushedEntry n s) = flushedEntry n s := by
    apply foldl_mergeBranch_noop
    intro p hp
    exact foldl_mergeBranch_ge s.branches _ hnd hp
  show s.branches.foldl mergeBranch
      (applyCounts ((lookupA n (flush s).results).getD defaultEntry) s.counts) =
    flushedEntry n s
  rw [hE]
  simp only [Option.getD_some]
  rw [hstep1]
  exact hstep2

theorem flush_eq_some (s : ParseState) (cl : Nat) (h : s.current_line = some cl) :
    flush s = { results := insertA cl (flushedEntry cl s) s.results
              , current_line := none, counts := [], branches := [] } := by
  obtain ⟨res, cur, cnt, brs⟩ := s
  cases cur with
  | none => simp at h
  | some x =>
    obtain rfl : x = cl := Option.some.inj h
    rfl

theorem flush_twice (s : ParseState) (n : Nat) (h : s.current_line = some n)
    (hnd : (s.branches.map Prod.fst).Nodup) :
    flush { results := (flush s).results, current_line := s.current_line
          , counts := s.counts, branches := s.branches } = flush s := by
  have hfe := flushedEntry_restore s n h hnd
  have h2 : ({ results := (flush s).results, current_line := s.current_line
             , counts := s.counts, branches := s.branches } : ParseState).current_line =
      some n := h
  rw [flush_eq_some _ n h2]
  rw [hfe]
  rw [flush_eq_some s n h]
  simp [insertA_idem]

/-! Concrete inputs used by witnesses and counterexamples. -/

/-- Target base name used in concrete scenarios. -/
def tgt : String := "f.cbl"

/-- One marker block with two records for branch 0: 80 percent first, then
50 percent. -/
def inputC1 : List GcovLine :=
  [GcovLine.marker 1 tgt,
   GcovLine.branchTaken 0 80 ("branch 0 taken 80%"),
   GcovLine.branchTaken 0 50 ("branch 0 taken 50%")]

/-- A marker block carrying only a branch record and no count token. -/
def inputC2 : List GcovLine :=
  [GcovLine.marker 1 tgt, GcovLine.branchTaken 0 100 ("branch 0 taken 100%")]

/-- Two marker blocks for line 2 with count tokens 5 and 3. -/
def inputC5 : List GcovLine :=
  [GcovLine.marker 2 tgt, GcovLine.plain ("5:2:MOVE A TO B"),
   GcovLine.marker 2 tgt, GcovLine.plain ("3:2:MOVE A TO B")]

/-- A marker for a different source file followed by a count token. -/
def inputC8 : List GcovLine :=
  [GcovLine.marker 1 ("other.cbl"), GcovLine.plain ("5:1:MOVE A TO B")]

/-- A signed count field, accepted by Python int(). -/
def inputC9 : List GcovLine :=
  [GcovLine.marker 1 tgt, GcovLine.plain ("-5:1:MOVE A TO B")]

/-- Map entry used in the C6 scenario: hits 5 with branches at 100 and 0. -/
def covC6 : CoverageMap :=
  [(1, { hits := some 5, executable := true
       , branches := [(0, { pct := 100, detail := "branch 0 taken 100%" })
                     , (1, { pct := 0, detail := "branch 1 taken 0%" })] })]

/-- Parse state with an active line and a pending accumulator. -/
def sC4 : ParseState :=
  { results := [(1, { hits := some 2, executable := true, branches := [] })]
  , current_line := some 1, counts := [3]
  , branches := [(0, { pct := 50, detail := "branch 0 taken 50%" })] }

/-- Parse state with active marker line 10 and empty accumulator. -/
def sC10 : ParseState :=
  { results := [], current_line := some 10, counts := [], branches := [] }

/-! Claim theorems. -/

/-- C1 counterexample: with `branch 0 taken 80%` then `branch 0 taken 50%`
inside one marker block for line 1, the stored percentage is 50, not the
maximum 80 observed for that branch id on that line, so the claim as stated
is false. -/
theorem C1_counterexample :
    getBranchPct (parse_gcov tgt inputC1) 1 0 = some 50 ∧
    getBranchPct (parse_gcov tgt inputC1) 1 0 ≠ some (max 80 50) := by
  decide

/-- C1 (amended): within one marker block a later branch record for the same
id overwrites the earlier one (no maximum is taken); at each flush the entry
with the strictly higher percentage wins against the stored one, so for
records in different marker blocks the stored percentage is their maximum. -/
theorem C1_branch_merge (bn path : String) (n id p1 p2 : Nat) (d1 d2 : String)
    (hp : pathName path = bn) :
    getBranchPct (parse_gcov bn
      [GcovLine.marker n path, GcovLine.branchTaken id p1 d1,
       GcovLine.branchTaken id p2 d2]) n id = some p2 ∧
    getBranchPct (parse_gcov bn
      [GcovLine.marker n path, GcovLine.branchTaken id p1 d1,
       GcovLine.marker n path, GcovLine.branchTaken id p2 d2]) n id = some (max p1 p2) := by
  constructor
  · simp [parse_gcov, initState, step, hp, flush, flushedEntry, applyCounts,
      mergeBranch, insertA, lookupA, getBranchPct]
  · by_cases hcmp : p2 > p1
    · simp [parse_gcov, initState, step, hp, flush, flushedEntry, applyCounts,
        mergeBranch, insertA, lookupA, getBranchPct, hcmp]
      omega
    · simp [parse_gcov, initState, step, hp, flush, flushedEntry, applyCounts,
        mergeBranch, insertA, lookupA, getBranchPct, hcmp]
      omega

/-- Witness for C1_branch_merge at line 1, branch 0, percentages 50 then 80. -/
theorem C1_branch_merge_witness :
    getBranchPct (parse_gcov tgt
      [GcovLine.marker 1 tgt, GcovLine.branchTaken 0 50 ("a"),
       GcovLine.branchTaken 0 80 ("b")]) 1 0 = some 80 ∧
    getBranchPct (parse_gcov tgt
      [GcovLine.marker 1 tgt, GcovLine.branchTaken 0 50 ("a"),
       GcovLine.marker 1 tgt, GcovLine.branchTaken 0 80 ("b")]) 1 0 = some (max 50 80) :=
  C1_branch_merge tgt tgt 1 0 50 80 ("a") ("b") (by decide)

/-- C2 counterexample: the map holds one branch entry (on a line that never
became executable), yet compute_summary reports branches.total = 0, so
branch entries of non-executable lines are not counted and the claim as
stated is false. -/
theorem C2_counterexample :
    (compute_summary (parse_gcov tgt inputC2)).branches.total = 0 ∧
    ((parse_gcov tgt inputC2).map (fun p => p.2.branches.length)).sum = 1 ∧
    (0 : Nat) ≠ 1 := by
  decide

/-- C2 (amended): branches.total counts the branch entries of executable
lines only, and branches.covered those among them with positive percentage;
lines whose entry has executable = false contribute nothing (likewise the
line counters range over executable entries only). -/
theorem C2_summary_counts (cov : CoverageMap) :
    compute_summary cov =
      { lines := { total := specLinesTotal cov, covered := specLinesCovered cov }
      , branches := { total := specBranchesTotal cov, covered := specBranchesCovered cov } } :=
  compute_summary_eq cov

/-- C3: the per-line class of the HTML renderer and the per-line status of
the JSON export agree on every physical source line: nonexec iff noncode,
and covered, partial, missed on exactly the same lines. -/
theorem C3_render_json_agree (cov : CoverageMap) (srcLines : List String) (i : Nat)
    (h : i < srcLines.length) :
    (((render_rows cov srcLines).getD i dummyHtmlRow).css_class = "nonexec" ↔
      ((build_json_lines cov srcLines).getD i dummyJsonLine).status = "noncode") ∧
    (((render_rows cov srcLines).getD i dummyHtmlRow).css_class = "covered" ↔
      ((build_json_lines cov srcLines).getD i dummyJsonLine).status = "covered") ∧
    (((render_rows cov srcLines).getD i dummyHtmlRow).css_class = "partial" ↔
      ((build_json_lines cov srcLines).getD i dummyJsonLine).status = "partial") ∧
    (((render_rows cov srcLines).getD i dummyHtmlRow).css_class = "missed" ↔
      ((build_json_lines cov srcLines).getD i dummyJsonLine).status = "missed") := by
  unfold render_rows build_json_lines
  rw [htmlRowsFrom_getD cov srcLines 1 i h, jsonLinesFrom_getD cov srcLines 1 i h]
  exact row_json_agree cov (1 + i) (srcLines.getD i "")

/-- Witness for C3_render_json_agree on the empty map and a one-line file. -/
theorem C3_witness :
    (((render_rows ([] : CoverageMap) ["DISPLAY X"]).getD 0 dummyHtmlRow).css_class =
        "nonexec" ↔
      ((build_json_lines ([] : CoverageMap) ["DISPLAY X"]).getD 0 dummyJsonLine).status =
        "noncode") ∧
    (((render_rows ([] : CoverageMap) ["DISPLAY X"]).getD 0 dummyHtmlRow).css_class =
        "covered" ↔
      ((build_json_lines ([] : CoverageMap) ["DISPLAY X"]).getD 0 dummyJsonLine).status =
        "covered") ∧
    (((render_rows ([] : CoverageMap) ["DISPLAY X"]).getD 0 dummyHtmlRow).css_class =
        "partial" ↔
      ((build_json_lines ([] : CoverageMap) ["DISPLAY X"]).getD 0 dummyJsonLine).status =
        "partial") ∧
    (((render_rows ([] : CoverageMap) ["DISPLAY X"]).getD 0 dummyHtmlRow).css_class =
        "missed" ↔
      ((build_json_lines ([] : CoverageMap) ["DISPLAY X"]).getD 0 dummyJsonLine).status =
        "missed") :=
  C3_render_json_agree ([] : CoverageMap) ["DISPLAY X"] 0 (by decide)

/-- C4: flushing the same accumulator contents twice (what a duplicate
marker for the same line followed by identical data lines produces) leaves
the map exactly as a single flush does: the merge is idempotent. -/
theorem C4_flush_idempotent (s : ParseState) (n : Nat) (h : s.current_line = some n)
    (hnd : (s.branches.map Prod.fst).Nodup) :
    flush { results := (flush s).results, current_line := s.current_line
          , counts := s.counts, branches := s.branches } = flush s :=
  flush_twice s n h hnd

/-- Witness for C4_flush_idempotent on a state with hits and a branch. -/
theorem C4_witness :
    flush { results := (flush sC4).results, current_line := sC4.current_line
          , counts := sC4.counts, branches := sC4.branches } = flush sC4 :=
  C4_flush_idempotent sC4 1 rfl (by decide)

/-- C5: a map entry is executable exactly when at least one count token
(numeric field or a zero sentinel; the "-" field contributes nothing) was
attached to its line while that line was active, and then its hits is the
maximum attached token. -/
theorem C5_hits_max_tokens (bn : String) (input : List GcovLine) (n : Nat) (e : Entry)
    (h : lookupA n (parse_gcov bn input) = some e) :
    (e.executable = true ↔ attachedTokens bn n input ≠ []) ∧
    (e.executable = true → e.hits = some (listMax (attachedTokens bn n input))) := by
  have hg := parse_goodOpt bn n input
  rw [h] at hg
  simp only [GoodOpt, GoodE] at hg
  obtain ⟨hiff, hnil, hcons⟩ := hg
  exact ⟨hiff, fun hx => hcons (hiff.mp hx)⟩

/-- Witness for C5_hits_max_tokens: tokens 5 and 3 in two blocks give an
executable entry with hits 5. -/
theorem C5_witness :
    ((({ hits := some 5, executable := true, branches := [] } : Entry).executable = true ↔
        attachedTokens tgt 2 inputC5 ≠ []) ∧
     (({ hits := some 5, executable := true, branches := [] } : Entry).executable = true →
        ({ hits := some 5, executable := true, branches := [] } : Entry).hits =
          some (listMax (attachedTokens tgt 2 inputC5)))) :=
  C5_hits_max_tokens tgt inputC5 2
    { hits := some 5, executable := true, branches := [] } (by decide)

/-- Entry-level form of the JSON status assignment of lines 167-175, stated
with the conditions of the specification. -/
theorem jsonStatus_spec (E : Entry) :
    (E.executable = false → jsonStatus E = "noncode") ∧
    (E.executable = true → (∃ hv : Int, E.hits = some hv ∧ 0 < hv) →
      (E.branches = [] ∨ ∀ b ∈ E.branches, 0 < b.2.pct) → jsonStatus E = "covered") ∧
    (E.executable = true → (∃ hv : Int, E.hits = some hv ∧ 0 < hv) →
      (∃ b ∈ E.branches, b.2.pct = 0) → jsonStatus E = "partial") ∧
    (E.executable = true → (E.hits = some 0 ∨ E.hits = none) →
      jsonStatus E = "missed") := by
  refine ⟨?_, ?_, ?_, ?_⟩
  · intro hx
    simp [jsonStatus, hx]
  · rintro hx ⟨hv, hhv, hpos⟩ hbr
    have hcond : ¬ (jsonBranchItems E ≠ [] ∧
        (jsonBranchItems E).any (fun item => item.pct == 0) = true) := by
      rcases hbr with hnil | hall
      · rintro ⟨h1, _⟩
        exact h1 ((jsonBranchItems_eq_nil_iff E).mpr hnil)
      · rintro ⟨_, h2⟩
        obtain ⟨b, hb, hpb⟩ := (jsonBranchItems_any_zero E).mp h2
        have := hall b hb
        omega
    simp only [partial_cond_iff] at hcond
    simp only [jsonStatus, partial_cond_iff]
    simp [hx, hhv, hpos, hcond]
    intro hne2
    rcases hbr with hnil | hall
    · exact absurd hnil hne2
    · have hcp : List.countP (fun b => decide (0 < b.2.pct)) E.branches =
          E.branches.length := by
        rw [List.countP_eq_length]
        intro b hb
        simpa using hall b hb
      omega
  · rintro hx ⟨hv, hhv, hpos⟩ ⟨b, hb, hpb⟩
    have hcond : (jsonBranchItems E ≠ [] ∧
        (jsonBranchItems E).any (fun item => item.pct == 0) = true) := by
      constructor
      · intro hnil
        rw [(jsonBranchItems_eq_nil_iff E).mp hnil] at hb
        cases hb
      · exact (jsonBranchItems_any_zero E).mpr ⟨b, hb, hpb⟩
    simp only [partial_cond_iff] at hcond
    simp only [jsonStatus, partial_cond_iff]
    simp [hx, hhv, hpos, hcond]
  · intro hx hh
    rcases hh with hh | hh <;> simp [jsonStatus, hx, hh]

/-- C6: per-line JSON status: noncode when the line is not executable;
covered when executable with positive hits and no branches or only positive
branch percentages; partial when executable with positive hits and some
branch at zero percent; missed when executable with hits 0 or null. -/
theorem C6_json_status (cov : CoverageMap) (srcLines : List String) (i : Nat)
    (h : i < srcLines.length) :
    ((((lookupA (1 + i) cov).getD defaultEntry).executable = false →
        ((build_json_lines cov srcLines).getD i dummyJsonLine).status = "noncode") ∧
     (((lookupA (1 + i) cov).getD defaultEntry).executable = true →
        (∃ hv : Int, ((lookupA (1 + i) cov).getD defaultEntry).hits = some hv ∧ 0 < hv) →
        (((lookupA (1 + i) cov).getD defaultEntry).branches = [] ∨
          ∀ b ∈ ((lookupA (1 + i) cov).getD defaultEntry).branches, 0 < b.2.pct) →
        ((build_json_lines cov srcLines).getD i dummyJsonLine).status = "covered") ∧
     (((lookupA (1 + i) cov).getD defaultEntry).executable = true →
        (∃ hv : Int, ((lookupA (1 + i) cov).getD defaultEntry).hits = some hv ∧ 0 < hv) →
        (∃ b ∈ ((lookupA (1 + i) cov).getD defaultEntry).branches, b.2.pct = 0) →
        ((build_json_lines cov srcLines).getD i dummyJsonLine).status = "partial") ∧
     (((lookupA (1 + i) cov).getD defaultEntry).executable = true →
        (((lookupA (1 + i) cov).getD defaultEntry).hits = some 0 ∨
          ((lookupA (1 + i) cov).getD defaultEntry).hits = none) →
        ((build_json_lines cov srcLines).getD i dummyJsonLine).status = "missed")) := by
  unfold build_json_lines
  rw [jsonLinesFrom_getD cov srcLines 1 i h]
  simp only [jsonLineOf]
  exact jsonStatus_spec ((lookupA (1 + i) cov).getD defaultEntry)

/-- Witness for C6_json_status: the scenario line with hits 5 and branches
at 100 and 0 percent receives status partial. -/
theorem C6_witness :
    ((build_json_lines covC6 ["IF A > B"]).getD 0 dummyJsonLine).status = "partial" :=
  (C6_json_status covC6 ["IF A > B"] 0 (by decide)).2.2.1 (by decide)
    ⟨5, by decide, by decide⟩
    ⟨(1, { pct := 0, detail := "branch 1 taken 0%" }), by decide, rfl⟩

/-- C7: the summary satisfies covered ≤ total for lines and branches, and
percent returns the fixed string 100.0 percent when the total is zero,
otherwise the one-decimal rendering of covered/total*100 with a percent
sign. -/
theorem C7_summary_percent (cov : CoverageMap) (c t : Nat) (ht : t ≠ 0) :
    (compute_summary cov).lines.covered ≤ (compute_summary cov).lines.total ∧
    (compute_summary cov).branches.covered ≤ (compute_summary cov).branches.total ∧
    percent c 0 = "100.0%" ∧
    percent c t = fmtTenths (roundTiesEven (c * 1000) t) ++ "%" := by
  refine ⟨?_, ?_, by simp [percent], by simp [percent, ht]⟩
  · rw [compute_summary_eq]
    exact specLines_le cov
  · rw [compute_summary_eq]
    exact specBranches_le cov

/-- Witness for C7_summary_percent on the map of the C6 scenario. -/
theorem C7_witness :
    (compute_summary covC6).lines.covered ≤ (compute_summary covC6).lines.total ∧
    (compute_summary covC6).branches.covered ≤ (compute_summary covC6).branches.total ∧
    percent 1 0 = "100.0%" ∧
    percent 1 3 = fmtTenths (roundTiesEven (1 * 1000) 3) ++ "%" :=
  C7_summary_percent covC6 1 3 (by decide)

/-- C8: a line number with no marker attributed to the target base name never
appears in the coverage map, and both renderers treat it as non-executable
(HTML class nonexec, JSON status noncode). -/
theorem C8_marker_filter (bn : String) (input : List GcovLine) (n : Nat)
    (h : n ∉ markersFor bn input) :
    lookupA n (parse_gcov bn input) = none ∧
    (htmlRowOf (parse_gcov bn input) n).css_class = "nonexec" ∧
    jsonStatus ((lookupA n (parse_gcov bn input)).getD defaultEntry) = "noncode" := by
  have h1 := parse_not_marked bn input n h
  refine ⟨h1, ?_, ?_⟩
  · simp [htmlRowOf, h1, defaultEntry]
  · rw [h1]
    simp [jsonStatus, defaultEntry]

/-- Witness for C8_marker_filter: a marker for other.cbl does not put its
line into the map for f.cbl. -/
theorem C8_witness :
    lookupA 1 (parse_gcov tgt inputC8) = none ∧
    (htmlRowOf (parse_gcov tgt inputC8) 1).css_class = "nonexec" ∧
    jsonStatus ((lookupA 1 (parse_gcov tgt inputC8)).getD defaultEntry) = "noncode" :=
  C8_marker_filter tgt inputC8 1 (by decide)

/-- C9 counterexample: a signed count field parses through Python int(), so
line 1 is executable with hits -5 and JSON status missed with hits not 0;
the consequence clause of the claim fails as stated. -/
theorem C9_counterexample :
    lookupA 1 (parse_gcov tgt inputC9) =
      some { hits := some (-5), executable := true, branches := [] } ∧
    jsonStatus { hits := some (-5), executable := true, branches := [] } = "missed" ∧
    (some (-5) : Option Int) ≠ some 0 := by
  decide

/-- C9 (amended): an executable map entry always carries integer hits (null
is unreachable there); a missed executable line has hits ≤ 0, and hits
exactly 0 whenever every attached count token is non-negative, as in real
gcov output. -/
theorem C9_missed_hits (bn : String) (input : List GcovLine) (n : Nat) (e : Entry)
    (h : lookupA n (parse_gcov bn input) = some e) (hx : e.executable = true) :
    ∃ hv : Int, e.hits = some hv ∧
      (jsonStatus e = "missed" → hv ≤ 0) ∧
      ((∀ t ∈ attachedTokens bn n input, 0 ≤ t) → jsonStatus e = "missed" → hv = 0) := by
  have hg := parse_goodOpt bn n input
  rw [h] at hg
  simp only [GoodOpt, GoodE] at hg
  obtain ⟨hiff, hnil, hcons⟩ := hg
  have htne := hiff.mp hx
  have hhits := hcons htne
  have hle : jsonStatus e = "missed" → listMax (attachedTokens bn n input) ≤ 0 := by
    intro hmiss
    by_contra hpos
    push_neg at hpos
    have hne : jsonStatus e ≠ "missed" := by
      simp only [jsonStatus, hx, hhits]
      simp [hpos]
      exact ite_str_ne (by decide) (by decide)
    exact hne hmiss
  refine ⟨listMax (attachedTokens bn n input), hhits, hle, ?_⟩
  intro hall hmiss
  have h0 : (0 : Int) ≤ listMax (attachedTokens bn n input) := hall _ (listMax_mem htne)
  have := hle hmiss
  omega

/-- Witness for C9_missed_hits on an entry with hits 5. -/
theorem C9_witness :
    ∃ hv : Int, ({ hits := some 5, executable := true, branches := [] } : Entry).hits =
        some hv ∧
      (jsonStatus { hits := some 5, executable := true, branches := [] } = "missed" →
        hv ≤ 0) ∧
      ((∀ t ∈ attachedTokens tgt 2 inputC5, 0 ≤ t) →
        jsonStatus { hits := some 5, executable := true, branches := [] } = "missed" →
        hv = 0) :=
  C9_missed_hits tgt inputC5 2 { hits := some 5, executable := true, branches := [] }
    (by decide) (by decide)

/-- C10: on a generic data line, the line-number field is only checked to be
numeric and its value is otherwise ignored: the step's result depends on the
count field alone and the token lands in the accumulator of the active
marker line, even when the field differs from that line. -/
theorem C10_line_field_ignored (bn : String) (s : ParseState) (m : Nat)
    (raw cf lf rest : String) (h1 : s.current_line = some m)
    (h2 : pyStrip raw ≠ "") (h3 : pySplit2 ':' raw = [cf, lf, rest])
    (h4 : isDigitString (pyStrip lf) = true) (h5 : pyStrip cf ≠ "") :
    step bn s (GcovLine.plain raw) =
      { s with counts := s.counts ++ (countToken (pyStrip cf)).toList } ∧
    (step bn s (GcovLine.plain raw)).current_line = some m := by
  have hcond : ¬ (¬ isDigitString (pyStrip lf) ∨ pyStrip cf = "") := by
    rintro (ha | hb)
    · exact ha h4
    · exact h5 hb
  have hpt : plainToken raw = countToken (pyStrip cf) := by
    unfold plainToken
    rw [if_neg h2, h3]
    show (if ¬ isDigitString (pyStrip lf) ∨ pyStrip cf = "" then none
          else countToken (pyStrip cf)) = countToken (pyStrip cf)
    rw [if_neg hcond]
  constructor
  · simp only [step, h1]
    rw [hpt]
  · simp [step, h1]

/-- Witness for C10_line_field_ignored: the count 7 on a data line whose
line-number field reads 99 is attributed to the active marker line 10. -/
theorem C10_witness :
    (step tgt sC10 (GcovLine.plain ("7: 99:MOVE A TO B")) =
      { sC10 with counts := sC10.counts ++ (countToken (pyStrip ("7"))).toList }) ∧
    (step tgt sC10 (GcovLine.plain ("7: 99:MOVE A TO B"))).current_line = some 10 :=
  C10_line_field_ignored tgt sC10 10 ("7: 99:MOVE A TO B") ("7") (" 99") ("MOVE A TO B")
    rfl (by decide) (by decide) (by decide) (by decide)
